import Mathlib

/-! Shallow embedding of the leandvbtx DVB-S modulator front-end
(src/src/apps/leandvbtx.cc): the interpolator stage, the configuration
record, the command-line loop of main, and the parameters the pipeline
assembly run() passes to each stage. The buffer class and the stages
whose implementations live in the leansdr headers (framework.h, dsp.h,
filtergen.h — not part of the sources here) are modelled from the spec;
each such definition says so in its doc comment. C integer arithmetic
is embedded as ℤ/ℕ, C float arithmetic as ℚ, and the transcendental
float expressions (sqrtf, expf/logf) as ℝ. -/

/-- Modelled from the spec: a single-producer single-consumer pipebuf
(leansdr framework.h, not in src). capacity is fixed at construction;
data holds the fully written, not-yet-read elements, so readable()
counts them and writable() is the free capacity. -/
structure pipebuf (α : Type) where
  capacity : ℕ
  data : List α
deriving DecidableEq

/-- Modelled from the spec: readable() returns the number of fully
written, not-yet-read elements. -/
def pipebuf.readable {α : Type} (b : pipebuf α) : ℕ := b.data.length

/-- Modelled from the spec: writable() returns the free capacity. -/
def pipebuf.writable {α : Type} (b : pipebuf α) : ℕ := b.capacity - b.data.length

/-- Embeds the body of the copy loop of interpolator::run (leandvbtx.cc
lines 31-34): each input sample is emitted followed by d-1 zero
samples. -/
def zeroStuff {α : Type} [Zero α] (d : ℕ) : List α → List α
  | [] => []
  | x :: rest => (x :: List.replicate (d - 1) 0) ++ zeroStuff d rest

/-- Embeds line 29 of interpolator::run:
count = min(in.readable(), out.writable()/d). -/
def interpCount {α : Type} (d : ℕ) (inb outb : pipebuf α) : ℕ :=
  min inb.readable (outb.writable / d)

namespace interpolator

/-- Embeds interpolator::run (leandvbtx.cc lines 28-37): compute count,
copy count input samples to the output with d-1 stuffed zeros after
each, then commit with in.read(count) and out.written(count*d). The
returned pair is (input buffer after read, output buffer after
written). -/
def run {α : Type} [Zero α] (d : ℕ) (inb outb : pipebuf α) : pipebuf α × pipebuf α :=
  let count := interpCount d inb outb
  (⟨inb.capacity, inb.data.drop count⟩,
   ⟨outb.capacity, outb.data ++ zeroStuff d (inb.data.take count)⟩)

end interpolator

/-- Modelled from the spec: the decimator stage (leansdr dsp.h, not in
src) retains every decimation_factor-th sample, starting with the
first. -/
def decimate {α : Type} (D : ℕ) : List α → List α
  | [] => []
  | x :: rest => x :: decimate D (rest.drop (D - 1))
termination_by xs => xs.length
decreasing_by simp only [List.length_drop, List.length_cons]; omega

/-- Embeds struct config (leandvbtx.cc lines 43-55). C float fields are
idealized as ℚ, except power, which the --power option sets to a
transcendental value (line 183) and which is therefore ℝ. -/
structure config where
  power : ℝ
  agc : Bool
  interp : ℤ
  decim : ℤ
  rolloff : ℚ
  verbose : Bool
  debug : Bool

/-- Embeds the default constructor config::config (lines 50-54). -/
def config.init : config :=
  { power := 1, agc := false, interp := 2, decim := 1,
    rolloff := 35 / 100, verbose := false, debug := false }

/-- Whitespace skipping performed by the %d conversion of sscanf and by
atof, modelled from the C library. -/
def skipWs : List Char → List Char
  | [] => []
  | c :: rest => if c.isWhitespace then skipWs rest else c :: rest

/-- Reads an optional leading sign, modelled from the C library number
conversions; returns the sign and the rest of the input. -/
def scanSign : List Char → ℤ × List Char
  | [] => (1, [])
  | c :: rest =>
    if c = '-' then (-1, rest)
    else if c = '+' then (1, rest)
    else (1, c :: rest)

/-- Reads a maximal run of decimal digits, accumulating their value;
returns (value, number of digits read, rest of the input). -/
def scanDigits : ℕ → ℕ → List Char → ℕ × ℕ × List Char
  | acc, cnt, [] => (acc, cnt, [])
  | acc, cnt, c :: rest =>
    if c.isDigit then scanDigits (10 * acc + (c.toNat - 48)) (cnt + 1) rest
    else (acc, cnt, c :: rest)

/-- A %d conversion of sscanf, modelled from the C library: skip
whitespace, optional sign, at least one digit; none on matching
failure. -/
def scanInt (s : List Char) : Option (ℤ × List Char) :=
  let p := scanSign (skipWs s)
  let q := scanDigits 0 0 p.2
  if q.2.1 = 0 then none else some (p.1 * (q.1 : ℤ), q.2.2)

/-- Embeds the sscanf(arg, d-slash-d format, &interp, &decim) call of
main (line 177): none when the first conversion fails (sscanf result
below 1, so usage is called); some (n, none) when only the first %d
converts (result 1, decim keeps the value 1 assigned at line 176);
some (n, some m) when the literal slash matches and the second %d
converts too (result 2). -/
def scanPair (s : String) : Option (ℤ × Option ℤ) :=
  match scanInt s.toList with
  | none => none
  | some (n, rest) =>
    match rest with
    | [] => some (n, none)
    | c :: rest2 =>
      if c = '/' then
        match scanInt rest2 with
        | none => some (n, none)
        | some (m, _) => some (n, some m)
      else some (n, none)

/-- Modelled from the C library: atof on a decimal string (optional
sign, digits, optional fraction, optional exponent); hex floats,
infinities and NaNs are elided as unused by this program's options.
Returns 0 when no digits are found, like atof. -/
def atofQ (s : String) : ℚ :=
  let p := scanSign (skipWs s.toList)
  let ip := scanDigits 0 0 p.2
  let fr : ℕ × ℕ × List Char :=
    match ip.2.2 with
    | [] => (0, 0, [])
    | c :: r => if c = '.' then scanDigits 0 0 r else (0, 0, ip.2.2)
  if ip.2.1 + fr.2.1 = 0 then 0 else
  let mant : ℚ := (p.1 : ℚ) * ((ip.1 : ℚ) + (fr.1 : ℚ) / (10 : ℚ) ^ fr.2.1)
  match fr.2.2 with
  | [] => mant
  | c :: r =>
    if c = 'e' ∨ c = 'E' then
      let ps := scanSign r
      let ev := scanDigits 0 0 ps.2
      if ev.2.1 = 0 then mant else mant * (10 : ℚ) ^ (ps.1 * (ev.1 : ℤ))
    else mant

/-- Embeds the --power conversion expf(logf(10)*x/20) (line 183),
idealized over ℝ. -/
noncomputable def dbToLinear (db : ℚ) : ℝ := Real.exp (Real.log 10 * (db : ℝ) / 20)

/-- Embeds the argument loop of main (leandvbtx.cc lines 167-188),
starting from a given configuration. The error value is the exit code
passed to usage: 0 for -h, 1 otherwise. The -f handler first resets
decim to 1 (line 176) and then lets the second %d conversion, when
present, overwrite it, exactly as the source does; an option that needs
an argument but is last on the line falls through to the final else and
exits 1, because its strcmp branch requires i+1 < argc. -/
noncomputable def parseArgs : List String → config → Except ℕ config
  | [], cfg => .ok cfg
  | a :: rest, cfg =>
    if a = "-h" then .error 0
    else if a = "-v" then parseArgs rest { cfg with verbose := true }
    else if a = "-d" then parseArgs rest { cfg with debug := true }
    else if a = "-f" then
      match rest with
      | [] => .error 1
      | v :: rest2 =>
        match scanPair v with
        | none => .error 1
        | some (n, none) => parseArgs rest2 { cfg with interp := n, decim := 1 }
        | some (n, some m) => parseArgs rest2 { cfg with interp := n, decim := m }
    else if a = "--roll-off" then
      match rest with
      | [] => .error 1
      | v :: rest2 => parseArgs rest2 { cfg with rolloff := atofQ v }
    else if a = "--power" then
      match rest with
      | [] => .error 1
      | v :: rest2 => parseArgs rest2 { cfg with power := dbToLinear (atofQ v) }
    else if a = "--agc" then parseArgs rest { cfg with agc := true }
    else .error 1

/-- Modelled from the spec: RS codewords are 204 bytes; SIZE_RSPACKET
lives in leansdr dvb.h, not in src. -/
def SIZE_RSPACKET : ℕ := 204

/-- The parameters run() hands to the simple_agc stage when cfg.agc is
set (leandvbtx.cc lines 127-136). -/
structure AgcParams where
  out_rms : ℝ
  bw : ℚ

/-- The configuration-dependent stage parameters computed by run()
during pipeline assembly (lines 57-145), plus whether sch.run() is
reached. Stage internals that live in the leansdr headers are not
modelled here, only the arguments the assembly passes to them. -/
structure Pipeline where
  bufPackets : ℕ
  bufBytes : ℕ
  bufSymbols : ℕ
  bufBaseband : ℕ
  Fm : ℚ
  order : ℤ
  resamplerInterp : ℤ
  decimFactor : ℤ
  agcStage : Option AgcParams
  schedulerStarted : Bool

/-- Embeds run(config&) (leandvbtx.cc lines 57-145). The assembly is
straight-line code with no conditional abort: every configuration
reaches sch.run() at line 142, hence schedulerStarted is
unconditionally true. Fm = 1.0/cfg.interp (line 102) is idealized in ℚ,
the AGC out_rms (line 132) in ℝ, and bw = 0.001*decim/interp (line 134)
in ℚ. -/
noncomputable def run (cfg : config) : Pipeline :=
  { bufPackets := 12
    bufBytes := SIZE_RSPACKET * 12
    bufSymbols := SIZE_RSPACKET * 12 * 8
    bufBaseband := 4096
    Fm := 1 / (cfg.interp : ℚ)
    order := cfg.interp * 10
    resamplerInterp := cfg.interp
    decimFactor := cfg.decim
    agcStage :=
      if cfg.agc then
        some { out_rms := cfg.power / Real.sqrt ((cfg.interp : ℝ) / (cfg.decim : ℝ))
               bw := (1 / 1000 : ℚ) * (cfg.decim : ℚ) / (cfg.interp : ℚ) }
      else none
    schedulerStarted := true }

/-- Helper: each consumed sample contributes 1 + (d-1) output elements. -/
theorem zeroStuff_length {α : Type} [Zero α] (d : ℕ) (xs : List α) :
    (zeroStuff d xs).length = xs.length * (1 + (d - 1)) := by
  induction xs with
  | nil => simp [zeroStuff]
  | cons x rest ih =>
    simp [zeroStuff, ih]
    ring

/-- Helper: the committed count never exceeds the readable count. -/
theorem interpCount_le_readable {α : Type} (d : ℕ) (inb outb : pipebuf α) :
    interpCount d inb outb ≤ inb.readable :=
  Nat.min_le_left _ _

/-- Helper: the committed count never exceeds writable()/d. -/
theorem interpCount_le_div {α : Type} (d : ℕ) (inb outb : pipebuf α) :
    interpCount d inb outb ≤ outb.writable / d :=
  Nat.min_le_right _ _

/-- Helper: count * d fits in the free space of the output buffer. -/
theorem interpCount_mul_le_writable {α : Type} (d : ℕ) (inb outb : pipebuf α) :
    interpCount d inb outb * d ≤ outb.writable := by
  rcases Nat.eq_zero_or_pos d with h | h
  · simp [h]
  · exact (Nat.le_div_iff_mul_le h).mp (interpCount_le_div d inb outb)

/-- Helper: the stage writes exactly count * d elements to the output. -/
theorem interp_produced_length {α : Type} [Zero α] (d : ℕ) (inb outb : pipebuf α) :
    (zeroStuff d (inb.data.take (interpCount d inb outb))).length
      = interpCount d inb outb * d := by
  have h1 : interpCount d inb outb ≤ inb.data.length := interpCount_le_readable d inb outb
  rw [zeroStuff_length, List.length_take, min_eq_left h1]
  rcases d with _ | d
  · have h0 : interpCount 0 inb outb = 0 := by
      simp [interpCount]
    simp [h0]
  · have h2 : 1 + (d + 1 - 1) = d + 1 := by omega
    rw [h2]

/-- C1: on every step of the interpolator stage with factor d, the stage
consumes n = min(readable, writable/d) input elements, with n ≤
readable() and n ≤ writable()/d (integer division, i.e. rounded down),
and commits exactly n to the input and exactly n*d to the output. -/
theorem C1_interpolator_rate {α : Type} [Zero α] (d : ℕ) (inb outb : pipebuf α) :
    interpCount d inb outb ≤ inb.readable ∧
    interpCount d inb outb ≤ outb.writable / d ∧
    (interpolator.run d inb outb).1.readable = inb.readable - interpCount d inb outb ∧
    (interpolator.run d inb outb).2.readable = outb.readable + interpCount d inb outb * d := by
  refine ⟨interpCount_le_readable d inb outb, interpCount_le_div d inb outb, ?_, ?_⟩
  · simp [interpolator.run, pipebuf.readable]
  · simp [interpolator.run, pipebuf.readable, interp_produced_length]

/-- C2: the consumed count is at most readable() and the produced count
count*d is at most writable(), both measured at the start of the step;
consequently a well-formed buffer (length ≤ capacity) stays well formed,
so the ℕ-valued readable() and writable() never underflow. -/
theorem C2_backpressure_safety {α : Type} [Zero α] (d : ℕ) (inb outb : pipebuf α)
    (hin : inb.data.length ≤ inb.capacity) (hout : outb.data.length ≤ outb.capacity) :
    interpCount d inb outb ≤ inb.readable ∧
    interpCount d inb outb * d ≤ outb.writable ∧
    (interpolator.run d inb outb).1.readable ≤ (interpolator.run d inb outb).1.capacity ∧
    (interpolator.run d inb outb).2.readable ≤ (interpolator.run d inb outb).2.capacity := by
  refine ⟨interpCount_le_readable d inb outb, interpCount_mul_le_writable d inb outb, ?_, ?_⟩
  · simp only [interpolator.run, pipebuf.readable, List.length_drop]
    omega
  · have hfits := interpCount_mul_le_writable d inb outb
    simp only [pipebuf.writable] at hfits
    simp only [interpolator.run, pipebuf.readable, List.length_append,
               interp_produced_length]
    omega

/-- C2 witness: a concrete step with d = 2 on a well-formed pair of
buffers. -/
theorem C2_backpressure_safety_witness :
    ([1, 2, 3] : List ℤ).length ≤ 4 ∧ ([] : List ℤ).length ≤ 5 ∧
    (interpCount 2 (⟨4, [1, 2, 3]⟩ : pipebuf ℤ) ⟨5, []⟩
        ≤ (⟨4, [1, 2, 3]⟩ : pipebuf ℤ).readable ∧
      interpCount 2 (⟨4, [1, 2, 3]⟩ : pipebuf ℤ) ⟨5, []⟩ * 2
        ≤ (⟨5, []⟩ : pipebuf ℤ).writable ∧
      (interpolator.run 2 (⟨4, [1, 2, 3]⟩ : pipebuf ℤ) ⟨5, []⟩).1.readable
        ≤ (interpolator.run 2 (⟨4, [1, 2, 3]⟩ : pipebuf ℤ) ⟨5, []⟩).1.capacity ∧
      (interpolator.run 2 (⟨4, [1, 2, 3]⟩ : pipebuf ℤ) ⟨5, []⟩).2.readable
        ≤ (interpolator.run 2 (⟨4, [1, 2, 3]⟩ : pipebuf ℤ) ⟨5, []⟩).2.capacity) :=
  ⟨by decide, by decide,
   C2_backpressure_safety 2 ⟨4, [1, 2, 3]⟩ ⟨5, []⟩ (by decide) (by decide)⟩

/-- C8: when the input has no readable element, or the output has fewer
than d writable slots, the interpolator step leaves both buffers
exactly as they were: readable and writable counts are unchanged, and
in fact the whole (input, output) pair is returned untouched. -/
theorem C8_no_progress_no_effect {α : Type} [Zero α] (d : ℕ) (inb outb : pipebuf α)
    (h : inb.readable = 0 ∨ outb.writable < d) :
    (interpolator.run d inb outb).1.readable = inb.readable ∧
    (interpolator.run d inb outb).1.writable = inb.writable ∧
    (interpolator.run d inb outb).2.readable = outb.readable ∧
    (interpolator.run d inb outb).2.writable = outb.writable ∧
    interpolator.run d inb outb = (inb, outb) := by
  have hc : interpCount d inb outb = 0 := by
    rcases h with h | h
    · simp [interpCount, pipebuf.readable] at h ⊢
      simp [h]
    · simp [interpCount, Nat.div_eq_of_lt h]
  have h1 : interpolator.run d inb outb = (inb, outb) := by
    simp [interpolator.run, hc, zeroStuff]
  simp [h1]

/-- C8 witness: a concrete starved step (readable = 0) with d = 3. -/
theorem C8_no_progress_no_effect_witness :
    ((⟨4, []⟩ : pipebuf ℤ).readable = 0 ∨ (⟨2, [1]⟩ : pipebuf ℤ).writable < 3) ∧
    interpolator.run 3 (⟨4, []⟩ : pipebuf ℤ) ⟨2, [1]⟩ = (⟨4, []⟩, ⟨2, [1]⟩) :=
  ⟨Or.inl (by decide),
   (C8_no_progress_no_effect 3 ⟨4, []⟩ ⟨2, [1]⟩ (Or.inl (by decide))).2.2.2.2⟩

/-- Helper: in the zero-stuffed stream, position i*d carries input
sample i. -/
theorem zeroStuff_sample {α : Type} [Zero α] (d : ℕ) (hd : 1 ≤ d) (xs : List α)
    (i : ℕ) (hi : i < xs.length) : (zeroStuff d xs)[i * d]? = xs[i]? := by
  induction xs generalizing i with
  | nil => simp at hi
  | cons x rest ih =>
    rcases i with _ | i
    · simp [zeroStuff]
    · have hlen : (x :: List.replicate (d - 1) (0 : α)).length = d := by
        simp
        omega
      have hge : (x :: List.replicate (d - 1) (0 : α)).length ≤ (i + 1) * d := by
        rw [hlen]
        calc d = 1 * d := (one_mul d).symm
        _ ≤ (i + 1) * d := Nat.mul_le_mul_right d (by omega)
      rw [zeroStuff, List.getElem?_append_right hge, hlen]
      have harith : (i + 1) * d - d = i * d := by
        rw [Nat.succ_mul]
        omega
      rw [harith, ih i (by simpa using Nat.lt_of_succ_lt_succ hi)]
      exact List.getElem?_cons_succ.symm

/-- Helper: in the zero-stuffed stream, positions i*d + j for
1 ≤ j < d carry stuffed zeros. -/
theorem zeroStuff_zero {α : Type} [Zero α] (d : ℕ) (xs : List α) (i j : ℕ)
    (hi : i < xs.length) (hj1 : 1 ≤ j) (hjd : j < d) :
    (zeroStuff d xs)[i * d + j]? = some 0 := by
  induction xs generalizing i with
  | nil => simp at hi
  | cons x rest ih =>
    have hlen : (x :: List.replicate (d - 1) (0 : α)).length = d := by
      simp
      omega
    rcases i with _ | i
    · rcases j with _ | j0
      · omega
      · rw [zeroStuff]
        have hj0 : j0 + 1 < (x :: List.replicate (d - 1) (0 : α)).length := by omega
        rw [List.getElem?_append]
        simp only [hj0, if_pos, Nat.zero_mul, Nat.zero_add]
        rw [List.getElem?_cons_succ]
        have : j0 < d - 1 := by omega
        simp [List.getElem?_replicate, this]
    · have hge : (x :: List.replicate (d - 1) (0 : α)).length ≤ (i + 1) * d + j := by
        rw [hlen]
        have : d ≤ (i + 1) * d := by
          calc d = 1 * d := (one_mul d).symm
          _ ≤ (i + 1) * d := Nat.mul_le_mul_right d (by omega)
        omega
      rw [zeroStuff, List.getElem?_append_right hge, hlen]
      have harith : (i + 1) * d + j - d = i * d + j := by
        rw [Nat.succ_mul]
        omega
      rw [harith]
      exact ih i (by simpa using Nat.lt_of_succ_lt_succ hi)

/-- Helper: the decimated stream's element k is the input's element
k*D. -/
theorem decimate_getElem {α : Type} (D : ℕ) (hD : 1 ≤ D) (k : ℕ) (xs : List α) :
    (decimate D xs)[k]? = xs[k * D]? := by
  induction k generalizing xs with
  | zero =>
    cases xs with
    | nil => simp [decimate]
    | cons x rest => simp [decimate]
  | succ k ih =>
    cases xs with
    | nil => simp [decimate]
    | cons x rest =>
      rw [decimate, List.getElem?_cons_succ, ih, List.getElem?_drop]
      have harith : (k + 1) * D = (D - 1 + k * D) + 1 := by
        rw [Nat.succ_mul]
        omega
      rw [harith, List.getElem?_cons_succ]

/-- C4: on a step of the interpolator with factor d, the region the
step appends to the output buffer holds, for each consumed input index
i, that input sample at offset i*d followed by exactly d-1 zeros at
offsets i*d+1 .. i*d+(d-1); and the decimator (modelled from the spec)
retains exactly every D-th sample of its input stream. -/
theorem C4_zero_stuffing {α : Type} [Zero α] (d : ℕ) (inb outb : pipebuf α)
    (i j : ℕ) (hd : 1 ≤ d) (hi : i < interpCount d inb outb) (hj1 : 1 ≤ j) (hjd : j < d)
    (D : ℕ) (hD : 1 ≤ D) (ys : List α) (k : ℕ) :
    (((interpolator.run d inb outb).2.data.drop outb.data.length)[i * d]? = inb.data[i]? ∧
     ((interpolator.run d inb outb).2.data.drop outb.data.length)[i * d + j]? = some 0) ∧
    (decimate D ys)[k]? = ys[k * D]? := by
  have hdrop : (interpolator.run d inb outb).2.data.drop outb.data.length
      = zeroStuff d (inb.data.take (interpCount d inb outb)) := by
    simp only [interpolator.run]
    exact List.drop_left _ _
  have hcle : interpCount d inb outb ≤ inb.data.length := interpCount_le_readable d inb outb
  have hlen : i < (inb.data.take (interpCount d inb outb)).length := by
    rw [List.length_take]
    omega
  refine ⟨⟨?_, ?_⟩, decimate_getElem D hD k ys⟩
  · rw [hdrop, zeroStuff_sample d hd _ i hlen, List.getElem?_take]
    simp [hi]
  · rw [hdrop]
    exact zeroStuff_zero d _ i j hlen hj1 hjd

/-- C4 witness: d = 3 on input [5, 7]; position 1*3 carries sample 7,
position 1*3+2 a stuffed zero; decimation by 2 of [1,2,3,4,5] keeps
element 4 at position 2. -/
theorem C4_zero_stuffing_witness :
    (1 ≤ 3 ∧ 1 < interpCount 3 (⟨4, [5, 7]⟩ : pipebuf ℤ) ⟨10, []⟩ ∧ 1 ≤ 2 ∧ 2 < 3 ∧
      (1 : ℕ) ≤ 2) ∧
    (((interpolator.run 3 (⟨4, [5, 7]⟩ : pipebuf ℤ) ⟨10, []⟩).2.data.drop
        ([] : List ℤ).length)[1 * 3]? = ([5, 7] : List ℤ)[1]? ∧
     ((interpolator.run 3 (⟨4, [5, 7]⟩ : pipebuf ℤ) ⟨10, []⟩).2.data.drop
        ([] : List ℤ).length)[1 * 3 + 2]? = some 0) ∧
    (decimate 2 ([1, 2, 3, 4, 5] : List ℤ))[2]? = ([1, 2, 3, 4, 5] : List ℤ)[2 * 2]? :=
  ⟨⟨by decide, by decide, by decide, by decide, by decide⟩,
   C4_zero_stuffing 3 ⟨4, [5, 7]⟩ ⟨10, []⟩ 1 2 (by decide) (by decide) (by decide)
     (by decide) 2 (by decide) [1, 2, 3, 4, 5] 2⟩

/-- C5: for every configuration, the pipeline requests the
root-raised-cosine filter with order = interp * 10 and normalized
cutoff Fm = 1/interp (leandvbtx.cc lines 102-106). -/
theorem C5_filter_request (cfg : config) :
    (run cfg).order = cfg.interp * 10 ∧ (run cfg).Fm = 1 / (cfg.interp : ℚ) :=
  ⟨rfl, rfl⟩

/-- C7: a freshly constructed configuration has interpolation factor 2,
decimation factor 1, roll-off 0.35, unity linear output power, AGC
disabled, and verbosity and debug flags off. -/
theorem C7_config_defaults :
    config.init.interp = 2 ∧ config.init.decim = 1 ∧
    config.init.rolloff = 35 / 100 ∧ config.init.power = 1 ∧
    config.init.agc = false ∧ config.init.verbose = false ∧
    config.init.debug = false :=
  ⟨rfl, rfl, rfl, rfl, rfl, rfl, rfl⟩

/-- C6: with AGC enabled, the assembled AGC stage's bandwidth is
0.001 * decim / interp, so bw * interp / decim is the constant 0.001
for every interpolation/decimation ratio (the loop time constant,
counted in symbol periods, does not depend on the ratio). -/
theorem C6_agc_bandwidth (cfg : config) (ha : cfg.agc = true)
    (hi : (cfg.interp : ℚ) ≠ 0) (hd : (cfg.decim : ℚ) ≠ 0) :
    (run cfg).agcStage.map AgcParams.bw
      = some ((1 / 1000 : ℚ) * (cfg.decim : ℚ) / (cfg.interp : ℚ)) ∧
    (run cfg).agcStage.map (fun a => a.bw * (cfg.interp : ℚ) / (cfg.decim : ℚ))
      = some (1 / 1000 : ℚ) := by
  constructor
  · simp [run, ha]
  · simp [run, ha]
    field_simp
    ring

/-- C6 witness: interp = 5, decim = 2 with AGC on. -/
theorem C6_agc_bandwidth_witness :
    ({ config.init with agc := true, interp := 5, decim := 2 } : config).agc = true ∧
    (run { config.init with agc := true, interp := 5, decim := 2 }).agcStage.map
        AgcParams.bw
      = some ((1 / 1000 : ℚ)
          * (({ config.init with agc := true, interp := 5, decim := 2 } : config).decim : ℚ)
          / (({ config.init with agc := true, interp := 5, decim := 2 } : config).interp : ℚ)) ∧
    (run { config.init with agc := true, interp := 5, decim := 2 }).agcStage.map
        (fun a => a.bw
          * (({ config.init with agc := true, interp := 5, decim := 2 } : config).interp : ℚ)
          / (({ config.init with agc := true, interp := 5, decim := 2 } : config).decim : ℚ))
      = some (1 / 1000 : ℚ) :=
  ⟨rfl,
   (C6_agc_bandwidth _ rfl (by norm_num) (by norm_num)).1,
   (C6_agc_bandwidth _ rfl (by norm_num) (by norm_num)).2⟩

/-- C9: with AGC enabled and positive factors, the assembled AGC
stage's target RMS is power / sqrt(interp/decim); and whenever
interp differs from decim and the power target is positive, that target
differs from the configured power itself. -/
theorem C9_agc_out_rms (cfg : config) (ha : cfg.agc = true)
    (hi : 0 < cfg.interp) (hd : 0 < cfg.decim) :
    (run cfg).agcStage.map AgcParams.out_rms
      = some (cfg.power / Real.sqrt ((cfg.interp : ℝ) / (cfg.decim : ℝ))) ∧
    (cfg.interp ≠ cfg.decim → 0 < cfg.power →
      (run cfg).agcStage.map AgcParams.out_rms ≠ some cfg.power) := by
  have hmap : (run cfg).agcStage.map AgcParams.out_rms
      = some (cfg.power / Real.sqrt ((cfg.interp : ℝ) / (cfg.decim : ℝ))) := by
    simp [run, ha]
  refine ⟨hmap, fun hne hp => ?_⟩
  rw [hmap]
  intro hcon
  have heq : cfg.power / Real.sqrt ((cfg.interp : ℝ) / (cfg.decim : ℝ)) = cfg.power :=
    Option.some.inj hcon
  have hr : (0 : ℝ) < (cfg.interp : ℝ) / (cfg.decim : ℝ) := by
    apply div_pos
    · exact_mod_cast hi
    · exact_mod_cast hd
  have hs : 0 < Real.sqrt ((cfg.interp : ℝ) / (cfg.decim : ℝ)) := Real.sqrt_pos.mpr hr
  have hmul : cfg.power = cfg.power * Real.sqrt ((cfg.interp : ℝ) / (cfg.decim : ℝ)) :=
    (div_eq_iff hs.ne').mp heq
  have hone : Real.sqrt ((cfg.interp : ℝ) / (cfg.decim : ℝ)) = 1 := by
    have := hmul.symm
    rw [mul_comm] at this
    have h1 : Real.sqrt ((cfg.interp : ℝ) / (cfg.decim : ℝ)) * cfg.power
        = 1 * cfg.power := by
      rw [this, one_mul]
    exact mul_right_cancel₀ hp.ne' h1
  have hratio : (cfg.interp : ℝ) / (cfg.decim : ℝ) = 1 := Real.sqrt_eq_one.mp hone
  have hcast : (cfg.interp : ℝ) = (cfg.decim : ℝ) := by
    field_simp at hratio
    exact_mod_cast hratio
  exact hne (by exact_mod_cast hcast)

/-- C9 witness: AGC on at the default ratio 2/1 with unity power. -/
theorem C9_agc_out_rms_witness :
    ({ config.init with agc := true } : config).agc = true ∧
    (0 : ℤ) < ({ config.init with agc := true } : config).interp ∧
    (0 : ℤ) < ({ config.init with agc := true } : config).decim ∧
    (run { config.init with agc := true }).agcStage.map AgcParams.out_rms
      = some (({ config.init with agc := true } : config).power
          / Real.sqrt ((({ config.init with agc := true } : config).interp : ℝ)
              / (({ config.init with agc := true } : config).decim : ℝ))) ∧
    (({ config.init with agc := true } : config).interp
        ≠ ({ config.init with agc := true } : config).decim →
      0 < ({ config.init with agc := true } : config).power →
      (run { config.init with agc := true }).agcStage.map AgcParams.out_rms
        ≠ some (({ config.init with agc := true } : config).power)) :=
  ⟨rfl, by decide, by decide,
   (C9_agc_out_rms _ rfl (by decide) (by decide)).1,
   (C9_agc_out_rms _ rfl (by decide) (by decide)).2⟩

/-- C3 counterexample: the command line -f 0 is accepted by main's
argument loop (sscanf converts the single integer 0, so usage is not
called) and yields interpolation factor 0 ≤ 0; assembling that
configuration still reaches sch.run(): nothing detects the error and
nothing aborts before the scheduler starts. -/
theorem C3_counterexample :
    (parseArgs ["-f", "0"] config.init).map config.interp = .ok 0 ∧
    (parseArgs ["-f", "0"] config.init).map (fun c => (run c).schedulerStarted)
      = .ok true := by
  constructor
  · simp only [parseArgs]
    norm_num
    rfl
  · simp only [parseArgs]
    norm_num
    rfl

/-- C3 (amended): pipeline assembly performs no configuration
validation at all: for every configuration — including interpolation
factor ≤ 0 or roll-off outside (0,1] — run() assembles the full
pipeline (with the AGC stage present exactly when configured) and
starts the scheduler. -/
theorem C3_no_config_validation (cfg : config) :
    (run cfg).schedulerStarted = true ∧ (run cfg).agcStage.isSome = cfg.agc := by
  refine ⟨rfl, ?_⟩
  by_cases h : cfg.agc <;> simp [run, h]

/-- C10: the -f handler of main: when the option argument converts as a
single integer n with no slash-decimation part, the loop continues with
interp = n and decim forced back to 1, whatever decimation an earlier
option had set; when no leading integer converts at all, the program
exits through usage with code 1. -/
theorem C10_dash_f (pre : config) (v : String) (rest : List String) (n : ℤ) :
    (scanPair v = some (n, none) →
      parseArgs ("-f" :: v :: rest) pre
        = parseArgs rest { pre with interp := n, decim := 1 }) ∧
    (scanPair v = none → parseArgs ("-f" :: v :: rest) pre = .error 1) := by
  constructor
  · intro h
    simp [parseArgs, h]
  · intro h
    simp [parseArgs, h]

/-- C10 witness: a second -f 7 after an earlier -f 3/4 resets decim to
1 and sets interp to 7; -f x exits with usage code 1. -/
theorem C10_dash_f_witness :
    scanPair "7" = some (7, none) ∧ scanPair "x" = none ∧
    parseArgs ["-f", "7"] { config.init with interp := 3, decim := 4 }
      = parseArgs []
          { { config.init with interp := 3, decim := 4 } with interp := 7, decim := 1 } ∧
    parseArgs ["-f", "x"] { config.init with interp := 3, decim := 4 } = .error 1 :=
  ⟨by decide, by decide,
   (C10_dash_f { config.init with interp := 3, decim := 4 } "7" [] 7).1 (by decide),
   (C10_dash_f { config.init with interp := 3, decim := 4 } "x" [] 7).2 (by decide)⟩
